import Mathlib

/-!
Verification development for the gingko ingestion-and-tracking pipeline.

The definitions below are a shallow embedding of the repository's Python
code: `pathlib.PurePosixPath` values become `GPath` (an absolute flag plus
a list of components), the Redis-backed tracking registry becomes explicit
state passing over `RedisState`, the local content-addressable file store
becomes explicit state passing over `FileSystem`, and fallible code
returns `Except`.  Hash functions (SHA1, MD5, ssdeep) are taken as
parameters, since the claims under study never depend on the digest
algebra, only on how digests are used.
-/

/-- Model of a `pathlib.PurePosixPath`: whether the path is absolute plus
its list of components (pathlib's `parts`, without the leading `/`). -/
structure GPath where
  absolute : Bool
  parts : List String
deriving DecidableEq, Repr

/-- Boolean list membership via decidable equality. -/
def elemBy {α : Type} [DecidableEq α] (l : List α) (a : α) : Bool :=
  l.any (fun x => decide (x = a))

/-- Split a character list on a separator, keeping empty groups, as
Python `str.split(sep)` does. -/
def splitOnChar (sep : Char) : List Char → List (List Char)
  | [] => [[]]
  | c :: cs =>
    let r := splitOnChar sep cs
    if c = sep then
      [] :: r
    else
      match r with
      | [] => [[c]]
      | g :: gs => (c :: g) :: gs

/-- Parse a Python path string the way `PurePosixPath` does: the path is
absolute when the string starts with `/`; components are the groups
between `/` separators, with empty groups and `.` dropped. -/
def parsePathStr (s : String) : GPath :=
  let cs := s.toList
  ⟨cs.head? = some '/',
   ((splitOnChar '/' cs).filter (fun g => g ≠ [] ∧ g ≠ ['.'])).map
     (fun g => String.mk g)⟩

/-- Model of `PurePosixPath.__truediv__` on two paths: joining with an
absolute right operand discards the left operand. -/
def joinPath (p q : GPath) : GPath :=
  if q.absolute then q else ⟨p.absolute, p.parts ++ q.parts⟩

/-- Model of `PurePosixPath / str`: the string operand is parsed first. -/
def joinStr (p : GPath) (s : String) : GPath :=
  joinPath p (parsePathStr s)

/-- Model of `PurePath("/")`. -/
def rootPath : GPath := ⟨true, []⟩

/-- Join path components with `/`, as Python `"/".join(...)` does. -/
def joinComponents : List String → String
  | [] => ""
  | [s] => s
  | s :: rest => s ++ "/" ++ joinComponents rest

/-- Model of `str(path)` on a `PurePosixPath`: absolute paths gain a
leading `/`; the empty relative path prints as `.`. -/
def renderPath (p : GPath) : String :=
  if p.absolute then "/" ++ joinComponents p.parts
  else if p.parts.isEmpty then "." else joinComponents p.parts

/-- Model of `PurePath.relative_to`: succeeds when `base` is a prefix of
`p`, returning the relative remainder; raises `ValueError` otherwise. -/
def relative_to (p base : GPath) : Except String GPath :=
  if p.absolute = base.absolute ∧ p.parts.take base.parts.length = base.parts then
    .ok ⟨false, p.parts.drop base.parts.length⟩
  else
    .error "ValueError"

/-- Model of `PurePath.name`: the last component, or the empty string. -/
def nameOf (p : GPath) : String :=
  p.parts.getLastD ""

/-- Model of `ExtractionType = Literal["tar", "zip", "directory"]`. -/
inductive ExtractionType where
  | tar
  | zip
  | directory
deriving DecidableEq, Repr

/-- Model of the pydantic `Extraction` record. -/
structure Extraction where
  path : GPath
  type : ExtractionType
  size_on_disk : Nat
  files : Nat
deriving DecidableEq, Repr

/-- Wire form of an `Extraction` as stored in the Redis hash: `hset` is
called with `dict(extraction)` after stringifying the path. -/
structure ExtractionRecord where
  path : String
  type : ExtractionType
  size_on_disk : Nat
  files : Nat
deriving DecidableEq, Repr

/-- Stringify an `Extraction` for storage, as `add_tracking_for_extraction`
does before calling `hset`. -/
def toRecord (e : Extraction) : ExtractionRecord :=
  ⟨renderPath e.path, e.type, e.size_on_disk, e.files⟩

/-- Rebuild an `Extraction` from its stored fields, as `Extraction(**raw)`
does (pydantic parses the path string back into a `PurePath`). -/
def ofRecord (r : ExtractionRecord) : Extraction :=
  ⟨parsePathStr r.path, r.type, r.size_on_disk, r.files⟩

/-- Model of the Redis state touched by `RedisGingkoTrackingClient`: the
membership set under `gingko-tracking-keys` plus one hash per tracked
path under its namespaced data key. -/
structure RedisState where
  keys : List String
  data : List (String × ExtractionRecord)
deriving DecidableEq, Repr

/-- Namespaced Redis data key for a tracked path, mirroring
`_REDIS_TRACKING_DATA_PREFIX + str(path)`. -/
def redisDataKey (pathStr : String) : String :=
  "gingko-tracking::" ++ pathStr

/-- Model of `SADD`: Redis sets ignore duplicate additions. -/
def sadd (keys : List String) (k : String) : List String :=
  if elemBy keys k then keys else keys ++ [k]

/-- Model of `SREM`: remove a member from the set. -/
def srem (keys : List String) (k : String) : List String :=
  keys.filter (fun x => decide (x ≠ k))

/-- Lookup in the hash table of stored extraction records. -/
def lookupData (data : List (String × ExtractionRecord)) (k : String) :
    Option ExtractionRecord :=
  (data.find? (fun kv => decide (kv.1 = k))).map (fun kv => kv.2)

/-- Model of `HSET` with a full mapping: overwrite or insert. -/
def hsetData (data : List (String × ExtractionRecord)) (k : String)
    (v : ExtractionRecord) : List (String × ExtractionRecord) :=
  if (lookupData data k).isSome then
    data.map (fun kv => if kv.1 = k then (k, v) else kv)
  else
    data ++ [(k, v)]

/-- Model of `DEL` on a data key. -/
def delData (data : List (String × ExtractionRecord)) (k : String) :
    List (String × ExtractionRecord) :=
  data.filter (fun kv => decide (kv.1 ≠ k))

/-- Model of `RedisGingkoTrackingClient.check_path_tracked`: `SISMEMBER`
on the stringified path. -/
def check_path_tracked (s : RedisState) (p : GPath) : Bool :=
  elemBy s.keys (renderPath p)

/-- Model of `RedisGingkoTrackingClient.add_tracking_for_extraction`:
raise `ExtractionAlreadyTrackedError` (carrying the extraction) when the
path is already tracked, otherwise `SADD` the path and `HSET` the record.
The error channel carries the offending extraction. -/
def add_tracking_for_extraction (s : RedisState) (e : Extraction) :
    Except Extraction RedisState :=
  if check_path_tracked s e.path then
    .error e
  else
    .ok ⟨sadd s.keys (renderPath e.path),
         hsetData s.data (redisDataKey (renderPath e.path)) (toRecord e)⟩

/-- Model of `RedisGingkoTrackingClient.remove_tracking_for_extraction`:
return unchanged when the path is not tracked, otherwise `DEL` the data
key and `SREM` the membership entry. -/
def remove_tracking_for_extraction (s : RedisState) (e : Extraction) :
    RedisState :=
  if ¬ check_path_tracked s e.path then
    s
  else
    ⟨srem s.keys (renderPath e.path),
     delData s.data (redisDataKey (renderPath e.path))⟩

/-- Model of `RedisGingkoTrackingClient.get_tracked_extractions`: read
every member of the tracking set and rebuild its record; a tracked path
with no stored hash would make `Extraction(**{})` raise. -/
def get_tracked_extractions (s : RedisState) :
    Except String (List Extraction) :=
  s.keys.mapM (fun k =>
    match lookupData s.data (redisDataKey k) with
    | some r => .ok (ofRecord r)
    | none => .error "ValidationError")

/-- Model of `get_tracked_extraction_data_by_path`: `none` when the path
is untracked. -/
def get_tracked_extraction_data_by_path (s : RedisState) (p : GPath) :
    Except String (Option Extraction) :=
  if check_path_tracked s p then
    match lookupData s.data (redisDataKey (renderPath p)) with
    | some r => .ok (some (ofRecord r))
    | none => .error "ValidationError"
  else
    .ok none

/-- Model of `get_tracked_extraction_data_by_type`: filter of the full
listing. -/
def get_tracked_extraction_data_by_type (s : RedisState)
    (t : ExtractionType) : Except String (List Extraction) :=
  (get_tracked_extractions s).map (fun l => l.filter (fun e => e.type = t))

/-- A registry operation, for stating preservation across every
operation the tracking client exposes. Reads are included; they do not
change the state. -/
inductive RegOp where
  | addOp (e : Extraction)
  | removeOp (e : Extraction)
  | listOp
  | checkOp (p : GPath)
  | getByPathOp (p : GPath)
  | getByTypeOp (t : ExtractionType)
deriving DecidableEq, Repr

/-- Effect of one registry operation on the Redis state: a failing `add`
(the `AlreadyTracked` case) leaves the state unchanged, reads never
change it. -/
def applyOp (s : RedisState) : RegOp → RedisState
  | .addOp e =>
    match add_tracking_for_extraction s e with
    | .ok s2 => s2
    | .error _ => s
  | .removeOp e => remove_tracking_for_extraction s e
  | .listOp => s
  | .checkOp _ => s
  | .getByPathOp _ => s
  | .getByTypeOp _ => s

/-- Effect of a sequence of registry operations. -/
def applyOps (s : RedisState) (ops : List RegOp) : RedisState :=
  ops.foldl applyOp s

/-- Whether an operation is a `remove` for the given path string. -/
def removesPath (op : RegOp) (k : String) : Bool :=
  match op with
  | .removeOp e => decide (renderPath e.path = k)
  | _ => false

/-! ## Content-addressable file store (`gingko/file_store.py`) -/

/-- Model of the filesystem slice the local file store touches:
the set of existing directories and the files with their bytes. -/
structure FileSystem where
  dirs : List GPath
  files : List (GPath × List Nat)
deriving DecidableEq, Repr

/-- Error raised by `LocalFileDataStore.retrieve_file`, modelling
`GingkoFileNotFound(file_hash)`: the error carries the digest. -/
inductive FileStoreError where
  | fileNotFound (file_hash : String)
deriving DecidableEq, Repr

/-- Model of Python string slicing `s[:n]`. -/
def striTake (n : Nat) (s : String) : String :=
  String.mk (s.toList.take n)

/-- Model of Python string slicing `s[a:b]`. -/
def striSlice (a b : Nat) (s : String) : String :=
  String.mk ((s.toList.take b).drop a)

/-- Every nonempty prefix of a path, shortest first; `mkdir(parents=True)`
creates exactly these directories when missing. -/
def ancestorsOf (p : GPath) : List GPath :=
  (List.range p.parts.length).map (fun n => ⟨p.absolute, p.parts.take (n + 1)⟩)

/-- Model of `Path.mkdir(exist_ok=True, parents=True)`: add the directory
and all its missing ancestors. -/
def mkdir_parents (fs : FileSystem) (p : GPath) : FileSystem :=
  ⟨(ancestorsOf p).foldl (fun ds q => if elemBy ds q then ds else ds ++ [q]) fs.dirs,
   fs.files⟩

/-- Lookup the bytes of a file. -/
def lookupFile (fs : FileSystem) (p : GPath) : Option (List Nat) :=
  (fs.files.find? (fun kv => decide (kv.1 = p))).map (fun kv => kv.2)

/-- Model of `Path.exists`: true for files and directories alike. -/
def pathExists (fs : FileSystem) (p : GPath) : Bool :=
  (lookupFile fs p).isSome || elemBy fs.dirs p

/-- Model of `Path.read_bytes`: a missing file raises `FileNotFoundError`. -/
def read_bytes (fs : FileSystem) (p : GPath) : Except String (List Nat) :=
  match lookupFile fs p with
  | some b => .ok b
  | none => .error "FileNotFoundError"

/-- Model of `shutil.copy(src, dst)` once the source bytes are known:
write the bytes at the destination, overwriting. -/
def copyFileBytes (fs : FileSystem) (dst : GPath) (b : List Nat) : FileSystem :=
  ⟨fs.dirs,
   if (lookupFile fs dst).isSome then
     fs.files.map (fun kv => if kv.1 = dst then (dst, b) else kv)
   else
     fs.files ++ [(dst, b)]⟩

/-- Model of `LocalFileDataStore._generate_file_path`: derive the shard
path `root / hash[:2] / hash[2:4] / hash`, creating the shard directories
(with parents) as a side effect before returning the file path. -/
def generate_file_path (fs : FileSystem) (file_store_root : GPath)
    (file_hash : String) : FileSystem × GPath :=
  let file_grandparent_dir := joinStr file_store_root (striTake 2 file_hash)
  let file_parent_dir := joinStr file_grandparent_dir (striSlice 2 4 file_hash)
  let fs2 := mkdir_parents fs file_parent_dir
  (fs2, joinStr file_parent_dir file_hash)

/-- Model of `LocalFileDataStore.store_file`, parameterized by the SHA1
digest function: hash the file's bytes, derive the shard path, copy the
file there, and return the value the code actually returns — the stored
path. -/
def store_file (sha1 : List Nat → String) (fs : FileSystem)
    (file_store_root : GPath) (file : GPath) :
    FileSystem × Except String GPath :=
  match read_bytes fs file with
  | .error e => (fs, .error e)
  | .ok b =>
    let file_hash := sha1 b
    let r := generate_file_path fs file_store_root file_hash
    (copyFileBytes r.1 r.2 b, .ok r.2)

/-- Model of `LocalFileDataStore.retrieve_file`: recompute the shard path
(which creates the shard directories) and fail with `GingkoFileNotFound`
when nothing exists there. -/
def retrieve_file (fs : FileSystem) (file_store_root : GPath)
    (file_hash : String) : FileSystem × Except FileStoreError GPath :=
  let r := generate_file_path fs file_store_root file_hash
  if pathExists r.1 r.2 then
    (r.1, .ok r.2)
  else
    (r.1, .error (.fileNotFound file_hash))

/-! ## Watcher and classifier (`gingko/watcher.py`) -/

/-- Model of `PurePath.suffixes` (CPython): empty when the name ends in a
dot; otherwise strip leading dots, split the rest on dots, drop the stem,
and put the dot back on each group. -/
def suffixesOfName (name : String) : List String :=
  let cs := name.toList
  if cs.getLast? = some '.' then
    []
  else
    let stripped := cs.dropWhile (fun c => c = '.')
    ((splitOnChar '.' stripped).drop 1).map (fun g => String.mk ('.' :: g))

/-- Model of `"".join(path.suffixes)` on the event path's file name. -/
def file_extension_of (p : GPath) : String :=
  String.join (suffixesOfName (nameOf p))

/-- Model of `_VALID_FILE_EXTRACTION_EXTENSIONS`. -/
def VALID_FILE_EXTRACTION_EXTENSIONS : List String :=
  [".tar", ".tar.gz", ".zip"]

/-- Model of `_FILE_EXTRACTION_EXTENSION_TO_EXTRACTION_TYPE_MAP`. -/
def extractionTypeOfExtension : String → Option ExtractionType
  | ".tar" => some .tar
  | ".tar.gz" => some .tar
  | ".zip" => some .zip
  | _ => none

/-- Size and member count read from an artifact at detection time
(`stat().st_size` plus the archive's member count or directory glob). -/
structure StatInfo where
  size : Nat
  files : Nat
deriving DecidableEq, Repr

/-- Model of `handle_tar_extraction_file`, parameterized by the fallible
tar-opening step (`tarfile.open` + `getmembers` + `stat`). -/
def handle_tar_extraction_file (readTar : GPath → Except String StatInfo)
    (p : GPath) : Except String Extraction :=
  (readTar p).map (fun i => ⟨p, .tar, i.size, i.files⟩)

/-- Model of `handle_zip_extraction_file`, parameterized by the fallible
zip-opening step (`zipfile.ZipFile` + `filelist` + `stat`). -/
def handle_zip_extraction_file (readZip : GPath → Except String StatInfo)
    (p : GPath) : Except String Extraction :=
  (readZip p).map (fun i => ⟨p, .zip, i.size, i.files⟩)

/-- Model of `handle_directory_extraction`, parameterized by the glob and
stat step. -/
def handle_directory_extraction (readDir : GPath → Except String StatInfo)
    (p : GPath) : Except String Extraction :=
  (readDir p).map (fun i => ⟨p, .directory, i.size, i.files⟩)

/-- The `try: add ... except ExtractionAlreadyTrackedError: skip` block
shared by both creation handlers: the only caught error is
`AlreadyTracked`, treated as a no-op skip. -/
def tryAddSkip (s : RedisState) (e : Extraction) : RedisState :=
  match add_tracking_for_extraction s e with
  | .ok s2 => s2
  | .error _ => s

/-- Model of `handle_potential_extraction_file`: join the path's
suffixes; silently skip unrecognized extensions; otherwise open the
archive (errors here are NOT caught and propagate) and then attempt
tracking, catching only `AlreadyTracked`. -/
def handle_potential_extraction_file (readTar readZip : GPath → Except String StatInfo)
    (p : GPath) (s : RedisState) : Except String RedisState :=
  let file_extension := file_extension_of p
  if ¬ elemBy VALID_FILE_EXTRACTION_EXTENSIONS file_extension then
    .ok s
  else
    match
      (match extractionTypeOfExtension file_extension with
       | some .tar => handle_tar_extraction_file readTar p
       | some .zip => handle_zip_extraction_file readZip p
       | _ => .error "NotImplemented")
    with
    | .error e => .error e
    | .ok extraction => .ok (tryAddSkip s extraction)

/-- Model of `handle_potential_extraction_directory`: classify every
created directory as a directory extraction (read errors propagate) and
attempt tracking, catching only `AlreadyTracked`. -/
def handle_potential_extraction_directory (readDir : GPath → Except String StatInfo)
    (p : GPath) (s : RedisState) : Except String RedisState :=
  match handle_directory_extraction readDir p with
  | .error e => .error e
  | .ok extraction => .ok (tryAddSkip s extraction)

/-- A filesystem creation event under the watched root. -/
inductive FSEvent where
  | fileCreated (p : GPath)
  | dirCreated (p : GPath)
deriving DecidableEq, Repr

/-- Model of `GingkoFileSystemEventHandler.on_created`: dispatch on the
event kind. -/
def on_created (readTar readZip readDir : GPath → Except String StatInfo)
    (s : RedisState) : FSEvent → Except String RedisState
  | .fileCreated p => handle_potential_extraction_file readTar readZip p s
  | .dirCreated p => handle_potential_extraction_directory readDir p s

/-! ## HTTP query facade (`gingko/server/extraction/router.py`) -/

/-- Model of the pydantic `GetExtractionRequest` body. -/
structure GetExtractionRequest where
  path : Option GPath
  type : Option ExtractionType
deriving DecidableEq, Repr

/-- Model of the `get_extraction` route handler: no body lists all;
otherwise the `path` filter is tried first and the `type` filter only in
the `elif` branch; with neither set the result list stays empty.  The
path branch wraps the possibly-absent lookup result in a one-element
list, hence the `Option` element type. -/
def get_extraction (s : RedisState) (req : Option GetExtractionRequest) :
    Except String (List (Option Extraction)) :=
  match req with
  | none => (get_tracked_extractions s).map (fun l => l.map some)
  | some r =>
    match r.path with
    | some p => (get_tracked_extraction_data_by_path s p).map (fun o => [o])
    | none =>
      match r.type with
      | some t =>
        (get_tracked_extraction_data_by_type s t).map (fun l => l.map some)
      | none => .ok []

/-! ## Unpackers (`gingko/server/extraction/unpacking.py`) -/

/-- Kind tag of an unpacked manifest entry. -/
inductive UnpackedExtractionObjectType where
  | file
  | directory
deriving DecidableEq, Repr

/-- Metadata of a manifest entry: fingerprints and size for files, empty
for directories. -/
inductive ObjMetadata where
  | fileMeta (md5 sha1 ssdeep : String) (size : Nat)
  | dirMeta
deriving DecidableEq, Repr

/-- Model of the pydantic `UnpackedExtractionObject`. -/
structure UnpackedExtractionObject where
  type : UnpackedExtractionObjectType
  path : GPath
  metadata : ObjMetadata
deriving DecidableEq, Repr

/-- One member of an abstract tree of files and directories, given by its
path components relative to the tree root. -/
structure TreeEntry where
  relParts : List String
  isDir : Bool
  content : List Nat
deriving DecidableEq, Repr

/-- Model of `DirectoryExtractionUnpacker._generate_extraction_rel_path`:
`Path("/") / object_path.relative_to(extraction_path)`. -/
def generate_extraction_rel_path (extraction_path object_path : GPath) :
    Except String GPath :=
  (relative_to object_path extraction_path).map (fun rp => joinPath rootPath rp)

/-- Model of `DirectoryExtractionUnpacker.unpack_extraction` on a tree:
`glob("**/*")` yields each entry at `extraction_path` extended by the
entry's relative components; directories get empty metadata, files are
read and fingerprinted. -/
def directory_unpack_extraction (md5f sha1f ssdeepf : List Nat → String)
    (extraction_path : GPath) (tree : List TreeEntry) :
    Except String (List UnpackedExtractionObject) :=
  tree.mapM (fun t =>
    let unpacked_object : GPath :=
      ⟨extraction_path.absolute, extraction_path.parts ++ t.relParts⟩
    if t.isDir then
      (generate_extraction_rel_path extraction_path unpacked_object).map
        (fun rp => ⟨.directory, rp, .dirMeta⟩)
    else
      (generate_extraction_rel_path extraction_path unpacked_object).map
        (fun rp =>
          ⟨.file, rp,
           .fileMeta (md5f t.content) (sha1f t.content) (ssdeepf t.content)
             t.content.length⟩))

/-- A tar archive member: `member.path` plus whether `member.isfile()`. -/
structure TarMember where
  path : String
  isFile : Bool
  content : List Nat
deriving DecidableEq, Repr

/-- Model of `TarExtractionUnpacker.unpack_extraction` on a member list:
regular files are read and fingerprinted, everything else gets empty
metadata; member paths are re-rooted with `PurePath("/") / member.path`. -/
def tar_unpack_extraction (md5f sha1f ssdeepf : List Nat → String)
    (members : List TarMember) : List UnpackedExtractionObject :=
  members.map (fun m =>
    if m.isFile then
      ⟨.file, joinStr rootPath m.path,
       .fileMeta (md5f m.content) (sha1f m.content) (ssdeepf m.content)
         m.content.length⟩
    else
      ⟨.directory, joinStr rootPath m.path, .dirMeta⟩)

/-- A zip archive member: `member.filename` (directories carry a trailing
slash) plus the stored bytes. -/
structure ZipMember where
  filename : String
  content : List Nat
deriving DecidableEq, Repr

/-- Model of `zipfile.ZipInfo.is_dir`: the filename ends with `/`. -/
def zipMemberIsDir (m : ZipMember) : Bool :=
  m.filename.toList.getLast? = some '/'

/-- Model of `ZipExtractionUnpacker.unpack_extraction` on a member list:
directory entries get empty metadata, files are read and fingerprinted;
member names are re-rooted with `PurePath("/") / member.filename`. -/
def zip_unpack_extraction (md5f sha1f ssdeepf : List Nat → String)
    (members : List ZipMember) : List UnpackedExtractionObject :=
  members.map (fun m =>
    if zipMemberIsDir m then
      ⟨.directory, joinStr rootPath m.filename, .dirMeta⟩
    else
      ⟨.file, joinStr rootPath m.filename,
       .fileMeta (md5f m.content) (sha1f m.content) (ssdeepf m.content)
         m.content.length⟩)

/-- Encode a tree entry as the tar member a tar archive of that tree
contains: the member name is the `/`-joined relative components. -/
def tarMemberOfEntry (t : TreeEntry) : TarMember :=
  ⟨joinComponents t.relParts, ¬ t.isDir, t.content⟩

/-- Encode a tree entry as the zip member a zip archive of that tree
contains: directory entries carry a trailing slash. -/
def zipMemberOfEntry (t : TreeEntry) : ZipMember :=
  ⟨joinComponents t.relParts ++ (if t.isDir then "/" else ""), t.content⟩

/-- A well-formed path component: nonempty, not `.`, and containing no
separator. -/
def plainComponent (s : String) : Bool :=
  s ≠ "" && s ≠ "." && s.toList.all (fun c => c ≠ '/')

/-- A well-formed tree entry: a nonempty chain of plain components. -/
def wfEntry (t : TreeEntry) : Bool :=
  t.relParts ≠ [] && t.relParts.all plainComponent

/-! ## Helper lemmas -/

/-- Boolean membership agrees with list membership. -/
theorem elemBy_eq_true_iff {α : Type} [DecidableEq α] (l : List α) (a : α) :
    elemBy l a = true ↔ a ∈ l := by
  simp [elemBy]

/-- Adding a member makes it a member. -/
theorem elemBy_sadd_self (keys : List String) (k : String) :
    elemBy (sadd keys k) k = true := by
  by_cases h : elemBy keys k
  · simp [sadd, h]
  · simp [sadd, h, elemBy_eq_true_iff]

/-- Adding any member preserves existing membership. -/
theorem elemBy_sadd_of_elemBy (keys : List String) (k k2 : String)
    (h : elemBy keys k = true) : elemBy (sadd keys k2) k = true := by
  by_cases h2 : elemBy keys k2
  · simpa [sadd, h2]
  · simp [sadd, h2]
    rw [elemBy_eq_true_iff] at h ⊢
    exact List.mem_append_left _ h

/-- Removing a different member preserves membership. -/
theorem elemBy_srem_of_ne (keys : List String) (k k2 : String)
    (h : k ≠ k2) : elemBy (srem keys k2) k = elemBy keys k := by
  rw [Bool.eq_iff_iff]
  simp [elemBy_eq_true_iff, srem, List.mem_filter, h]

/-- A removed member is no longer a member. -/
theorem elemBy_srem_self (keys : List String) (k : String) :
    elemBy (srem keys k) k = false := by
  simp [elemBy, srem, List.mem_filter]

/-- Deleting a data key removes its binding. -/
theorem lookupData_delData_self (data : List (String × ExtractionRecord))
    (k : String) : lookupData (delData data k) k = none := by
  have hfind : List.find? (fun kv => decide (kv.1 = k))
      (List.filter (fun kv => decide (kv.1 ≠ k)) data) = none := by
    rw [List.find?_eq_none]
    intro kv hkv
    have h2 := (List.mem_filter.mp hkv).2
    simp at h2 ⊢
    exact h2
  simp [lookupData, delData, hfind]

/-- One registry operation that is not a `remove` for path key `k`
preserves `k`'s membership in the tracking set. -/
theorem tracked_applyOp (s : RedisState) (k : String) (op : RegOp)
    (h : elemBy s.keys k = true) (hop : removesPath op k = false) :
    elemBy (applyOp s op).keys k = true := by
  cases op with
  | addOp e =>
    simp only [applyOp, add_tracking_for_extraction]
    by_cases hc : check_path_tracked s e.path
    · simp [hc, h]
    · simp [hc, elemBy_sadd_of_elemBy _ _ _ h]
  | removeOp e =>
    simp only [applyOp, remove_tracking_for_extraction]
    by_cases hc : check_path_tracked s e.path
    · have hne : k ≠ renderPath e.path := by
        simp only [removesPath, decide_eq_false_iff_not] at hop
        exact fun hk => hop (hk ▸ rfl)
      simp [hc]
      rw [elemBy_srem_of_ne _ _ _ hne]
      exact h
    · simp [hc, h]
  | listOp => simpa [applyOp]
  | checkOp p => simpa [applyOp]
  | getByPathOp p => simpa [applyOp]
  | getByTypeOp t => simpa [applyOp]

/-- A sequence of registry operations containing no `remove` for path
key `k` preserves `k`'s membership in the tracking set. -/
theorem tracked_applyOps (k : String) (ops : List RegOp) (s : RedisState)
    (h : elemBy s.keys k = true)
    (hops : ∀ op ∈ ops, removesPath op k = false) :
    elemBy (applyOps s ops).keys k = true := by
  induction ops generalizing s with
  | nil => simpa [applyOps]
  | cons op rest ih =>
    have h1 : elemBy (applyOp s op).keys k = true :=
      tracked_applyOp s k op h (hops op (List.mem_cons_self op rest))
    have hrest : ∀ o ∈ rest, removesPath o k = false :=
      fun o ho => hops o (List.mem_cons_of_mem op ho)
    simpa [applyOps] using ih (applyOp s op) h1 hrest

/-- C1: after `add` succeeds for an extraction with path `P`, any
sequence of registry operations that contains no `remove` for `P` keeps
`P` tracked, and a later `add` of any record whose path equals `P` fails
with `AlreadyTracked` carrying that record; so at most one extraction is
tracked per path, preserved by every registry operation until a `remove`
for `P` completes. -/
theorem registry_add_unique_until_remove
    (s s0 : RedisState) (e e2 : Extraction) (ops : List RegOp)
    (hadd : add_tracking_for_extraction s e = .ok s0)
    (hops : ∀ op ∈ ops, removesPath op (renderPath e.path) = false)
    (hpath : e2.path = e.path) :
    check_path_tracked (applyOps s0 ops) e2.path = true ∧
    add_tracking_for_extraction (applyOps s0 ops) e2 = .error e2 := by
  have h0 : elemBy s0.keys (renderPath e.path) = true := by
    unfold add_tracking_for_extraction at hadd
    by_cases hc : check_path_tracked s e.path
    · simp [hc] at hadd
    · simp [hc] at hadd
      rw [← hadd]
      exact elemBy_sadd_self _ _
  have htr : elemBy (applyOps s0 ops).keys (renderPath e.path) = true :=
    tracked_applyOps _ ops s0 h0 hops
  have htr2 : check_path_tracked (applyOps s0 ops) e2.path = true := by
    simpa [check_path_tracked, hpath] using htr
  refine ⟨htr2, ?_⟩
  simp [add_tracking_for_extraction, htr2]

/-- Witness for `registry_add_unique_until_remove`: a concrete run where
`/mnt/data/a.tar` is added, another path is added and removed and reads
happen in between, and a second add for `/mnt/data/a.tar` still fails. -/
theorem registry_add_unique_until_remove_witness :
    check_path_tracked
      (applyOps
        (RedisState.mk ["/mnt/data/a.tar"]
          [("gingko-tracking::/mnt/data/a.tar",
            ExtractionRecord.mk "/mnt/data/a.tar" .tar 10 2)])
        [RegOp.addOp ⟨⟨true, ["mnt", "data", "b.zip"]⟩, .zip, 5, 1⟩,
         RegOp.listOp,
         RegOp.addOp ⟨⟨true, ["mnt", "data", "a.tar"]⟩, .tar, 10, 2⟩,
         RegOp.removeOp ⟨⟨true, ["mnt", "data", "b.zip"]⟩, .zip, 5, 1⟩,
         RegOp.checkOp ⟨true, ["mnt", "data", "a.tar"]⟩])
      ⟨true, ["mnt", "data", "a.tar"]⟩ = true ∧
    add_tracking_for_extraction
      (applyOps
        (RedisState.mk ["/mnt/data/a.tar"]
          [("gingko-tracking::/mnt/data/a.tar",
            ExtractionRecord.mk "/mnt/data/a.tar" .tar 10 2)])
        [RegOp.addOp ⟨⟨true, ["mnt", "data", "b.zip"]⟩, .zip, 5, 1⟩,
         RegOp.listOp,
         RegOp.addOp ⟨⟨true, ["mnt", "data", "a.tar"]⟩, .tar, 10, 2⟩,
         RegOp.removeOp ⟨⟨true, ["mnt", "data", "b.zip"]⟩, .zip, 5, 1⟩,
         RegOp.checkOp ⟨true, ["mnt", "data", "a.tar"]⟩])
      ⟨⟨true, ["mnt", "data", "a.tar"]⟩, .directory, 99, 7⟩ =
      .error ⟨⟨true, ["mnt", "data", "a.tar"]⟩, .directory, 99, 7⟩ :=
  registry_add_unique_until_remove
    (RedisState.mk [] [])
    (RedisState.mk ["/mnt/data/a.tar"]
      [("gingko-tracking::/mnt/data/a.tar",
        ExtractionRecord.mk "/mnt/data/a.tar" .tar 10 2)])
    ⟨⟨true, ["mnt", "data", "a.tar"]⟩, .tar, 10, 2⟩
    ⟨⟨true, ["mnt", "data", "a.tar"]⟩, .directory, 99, 7⟩
    [RegOp.addOp ⟨⟨true, ["mnt", "data", "b.zip"]⟩, .zip, 5, 1⟩,
     RegOp.listOp,
     RegOp.addOp ⟨⟨true, ["mnt", "data", "a.tar"]⟩, .tar, 10, 2⟩,
     RegOp.removeOp ⟨⟨true, ["mnt", "data", "b.zip"]⟩, .zip, 5, 1⟩,
     RegOp.checkOp ⟨true, ["mnt", "data", "a.tar"]⟩]
    rfl (by decide) rfl

/-- C7: `remove` on an untracked path returns the state unchanged and
raises no error; `remove` on a tracked path deletes both the
path-membership fact and the stored field values for that path. -/
theorem remove_untracked_noop_tracked_deletes (s : RedisState) (e : Extraction) :
    (check_path_tracked s e.path = false →
      remove_tracking_for_extraction s e = s) ∧
    (check_path_tracked s e.path = true →
      check_path_tracked (remove_tracking_for_extraction s e) e.path = false ∧
      lookupData (remove_tracking_for_extraction s e).data
        (redisDataKey (renderPath e.path)) = none) := by
  constructor
  · intro h
    simp [remove_tracking_for_extraction, h]
  · intro h
    simp only [remove_tracking_for_extraction, h]
    simp only [Bool.true_eq_false, not_true_eq_false, if_false]
    exact ⟨elemBy_srem_self _ _, lookupData_delData_self _ _⟩

/-- Witness for `remove_untracked_noop_tracked_deletes`: removing an
untracked path is a no-op, and removing a tracked path deletes its
membership and its data. -/
theorem remove_untracked_noop_tracked_deletes_witness :
    remove_tracking_for_extraction (RedisState.mk [] [])
      ⟨⟨true, ["mnt", "data", "a.tar"]⟩, .tar, 10, 2⟩ = RedisState.mk [] [] ∧
    (check_path_tracked
        (remove_tracking_for_extraction
          (RedisState.mk ["/mnt/data/a.tar"]
            [("gingko-tracking::/mnt/data/a.tar",
              ExtractionRecord.mk "/mnt/data/a.tar" .tar 10 2)])
          ⟨⟨true, ["mnt", "data", "a.tar"]⟩, .tar, 10, 2⟩)
        ⟨true, ["mnt", "data", "a.tar"]⟩ = false ∧
      lookupData
        (remove_tracking_for_extraction
          (RedisState.mk ["/mnt/data/a.tar"]
            [("gingko-tracking::/mnt/data/a.tar",
              ExtractionRecord.mk "/mnt/data/a.tar" .tar 10 2)])
          ⟨⟨true, ["mnt", "data", "a.tar"]⟩, .tar, 10, 2⟩).data
        (redisDataKey "/mnt/data/a.tar") = none) :=
  ⟨(remove_untracked_noop_tracked_deletes (RedisState.mk [] [])
      ⟨⟨true, ["mnt", "data", "a.tar"]⟩, .tar, 10, 2⟩).1 (by decide),
   (remove_untracked_noop_tracked_deletes
      (RedisState.mk ["/mnt/data/a.tar"]
        [("gingko-tracking::/mnt/data/a.tar",
          ExtractionRecord.mk "/mnt/data/a.tar" .tar 10 2)])
      ⟨⟨true, ["mnt", "data", "a.tar"]⟩, .tar, 10, 2⟩).2 (by decide)⟩

/-- C10: when a `GET /extraction` request sets both the `path` and the
`type` filter, the `elif` chain gives the path filter precedence and the
type filter is ignored: the response equals the response for the same
request filtering by path alone. -/
theorem get_extraction_path_filter_precedence
    (s : RedisState) (p : GPath) (t : ExtractionType) :
    get_extraction s (some ⟨some p, some t⟩) =
      get_extraction s (some ⟨some p, none⟩) := rfl

/-- Splitting a separator-free character list yields one group. -/
theorem splitOnChar_of_no_sep (sep : Char) (cs : List Char)
    (h : ∀ c ∈ cs, c ≠ sep) : splitOnChar sep cs = [cs] := by
  induction cs with
  | nil => rfl
  | cons c rest ih =>
    have hc : c ≠ sep := h c (List.mem_cons_self c rest)
    have hr : splitOnChar sep rest = [rest] :=
      ih (fun x hx => h x (List.mem_cons_of_mem c hx))
    simp [splitOnChar, hc, hr]

/-- Parsing a plain component yields that single relative component. -/
theorem parsePathStr_plain (s : String) (h : plainComponent s = true) :
    parsePathStr s = ⟨false, [s]⟩ := by
  obtain ⟨cs⟩ := s
  simp only [plainComponent, Bool.and_eq_true, List.all_eq_true,
    decide_eq_true_eq, String.toList] at h
  obtain ⟨⟨hne, hdot⟩, hsep⟩ := h
  have hcs : cs ≠ [] := by
    intro hnil
    exact hne (by simp [hnil])
  have hsplit : splitOnChar '/' cs = [cs] :=
    splitOnChar_of_no_sep '/' cs (fun c hc => by
      have := hsep c hc
      simpa using this)
  have hcsdot : cs ≠ ['.'] := by
    intro hdot2
    exact hdot (by simp [hdot2])
  have hhead : (cs.head? = some '/') = False := by
    simp only [eq_iff_iff, iff_false]
    intro hh
    cases cs with
    | nil => simp at hh
    | cons c rest =>
      simp at hh
      have := hsep c (List.mem_cons_self c rest)
      simp [hh] at this
  simp [parsePathStr, String.toList, hsplit, hcs, hcsdot, hhead]

/-- Joining a plain component appends one part. -/
theorem joinStr_plain (p : GPath) (s : String) (h : plainComponent s = true) :
    joinStr p s = ⟨p.absolute, p.parts ++ [s]⟩ := by
  rw [joinStr, parsePathStr_plain s h]
  simp [joinPath]

/-- Shape of the shard path: with plain slices the generated file path is
exactly `root / hash[:2] / hash[2:4] / hash`. -/
theorem generate_file_path_parts (fs : FileSystem) (root : GPath) (d : String)
    (h2 : plainComponent (striTake 2 d) = true)
    (h24 : plainComponent (striSlice 2 4 d) = true)
    (hd : plainComponent d = true) :
    (generate_file_path fs root d).2 =
      ⟨root.absolute, root.parts ++ [striTake 2 d, striSlice 2 4 d, d]⟩ := by
  simp only [generate_file_path]
  rw [joinStr_plain _ _ h2, joinStr_plain _ _ h24, joinStr_plain _ _ hd]
  simp

/-- Membership after inserting a list of directories into the directory
list: the old members plus the inserted ones. -/
theorem elemBy_foldl_insert (l : List GPath) (ds : List GPath) (q : GPath) :
    elemBy (l.foldl (fun ds2 r => if elemBy ds2 r then ds2 else ds2 ++ [r]) ds) q =
      (elemBy ds q || elemBy l q) := by
  induction l generalizing ds with
  | nil => simp [elemBy]
  | cons r rest ih =>
    simp only [List.foldl_cons]
    by_cases hr : elemBy ds r
    · rw [if_pos hr, ih, Bool.eq_iff_iff]
      have hr2 : r ∈ ds := (elemBy_eq_true_iff ds r).mp hr
      simp only [Bool.or_eq_true, elemBy_eq_true_iff, List.mem_cons]
      constructor
      · rintro (hq | hq)
        · exact Or.inl hq
        · exact Or.inr (Or.inr hq)
      · rintro (hq | hq | hq)
        · exact Or.inl hq
        · exact Or.inl (by rw [hq]; exact hr2)
        · exact Or.inr hq
    · rw [if_neg hr, ih, Bool.eq_iff_iff]
      simp only [Bool.or_eq_true, elemBy_eq_true_iff, List.mem_append,
        List.mem_cons, List.mem_singleton, List.not_mem_nil, or_false]
      constructor
      · rintro ((hq | hq) | hq)
        · exact Or.inl hq
        · exact Or.inr (Or.inl hq)
        · exact Or.inr (Or.inr hq)
      · rintro (hq | hq | hq)
        · exact Or.inl (Or.inl hq)
        · exact Or.inl (Or.inr hq)
        · exact Or.inr hq

/-- Path existence after `mkdir -p`: the old facts plus the created
ancestor directories. -/
theorem pathExists_mkdir_parents (fs : FileSystem) (p q : GPath) :
    pathExists (mkdir_parents fs p) q =
      (pathExists fs q || elemBy (ancestorsOf p) q) := by
  simp only [pathExists, mkdir_parents, lookupFile, elemBy_foldl_insert]
  cases h : (Option.map (fun kv => kv.2)
      (List.find? (fun kv => decide (kv.1 = q)) fs.files)).isSome <;>
    simp [h, Bool.or_assoc]

/-- An ancestor of `p` has at most as many components as `p`; a strictly
longer path is never among them. -/
theorem elemBy_ancestorsOf_eq_false (p q : GPath)
    (h : p.parts.length < q.parts.length) :
    elemBy (ancestorsOf p) q = false := by
  have hnot : ¬ q ∈ ancestorsOf p := by
    intro hq
    simp only [ancestorsOf, List.mem_map, List.mem_range] at hq
    obtain ⟨n, hn, he⟩ := hq
    have := congrArg (fun r => r.parts.length) he
    simp only [List.length_take] at this
    omega
  cases hb : elemBy (ancestorsOf p) q with
  | false => rfl
  | true => exact absurd ((elemBy_eq_true_iff _ _).mp hb) hnot

/-- C3: for file contents with SHA1 digest `d`, the content store places
and looks up the file at exactly `<root>/d[0:2]/d[2:4]/d`: the generated
shard path has that shape, `store_file` returns exactly that path for a
file whose bytes hash to `d`, `retrieve_file` can only ever return that
path for `d`, and two files with identical bytes map to the identical
stored path regardless of their original names. -/
theorem content_store_path_is_sharded_digest
    (sha1 : List Nat → String) (fs : FileSystem) (root : GPath) (d : String)
    (h2 : plainComponent (striTake 2 d) = true)
    (h24 : plainComponent (striSlice 2 4 d) = true)
    (hd : plainComponent d = true) :
    (generate_file_path fs root d).2 =
      ⟨root.absolute, root.parts ++ [striTake 2 d, striSlice 2 4 d, d]⟩ ∧
    (∀ f b, read_bytes fs f = .ok b → sha1 b = d →
      (store_file sha1 fs root f).2 =
        .ok ⟨root.absolute, root.parts ++ [striTake 2 d, striSlice 2 4 d, d]⟩) ∧
    (∀ q, (retrieve_file fs root d).2 = .ok q →
      q = ⟨root.absolute, root.parts ++ [striTake 2 d, striSlice 2 4 d, d]⟩) ∧
    (∀ f g b c, read_bytes fs f = .ok b → read_bytes fs g = .ok c → b = c →
      (store_file sha1 fs root f).2 = (store_file sha1 fs root g).2) := by
  have hgen := generate_file_path_parts fs root d h2 h24 hd
  refine ⟨hgen, ?_, ?_, ?_⟩
  · intro f b hrf hsha
    simp only [store_file, hrf]
    rw [hsha, hgen]
  · intro q hq
    simp only [retrieve_file] at hq
    by_cases hex : pathExists (generate_file_path fs root d).1
        (generate_file_path fs root d).2
    · simp only [hex, if_true] at hq
      cases hq
      exact hgen
    · simp [hex] at hq
  · intro f g b c hrf hrg hbc
    simp only [store_file, hrf, hrg, hbc]

/-- Witness for `content_store_path_is_sharded_digest` at the SHA1 digest
of the empty input and a two-file store with identical contents. -/
theorem content_store_path_is_sharded_digest_witness :
    (generate_file_path
        (FileSystem.mk [] [(⟨true, ["in", "x.bin"]⟩, [7]), (⟨true, ["in", "y.bin"]⟩, [7])])
        ⟨true, ["store"]⟩ "da39a3ee5e6b4b0d3255bfef95601890afd80709").2 =
      ⟨true, ["store", "da", "39", "da39a3ee5e6b4b0d3255bfef95601890afd80709"]⟩ ∧
    (store_file (fun _ => "da39a3ee5e6b4b0d3255bfef95601890afd80709")
        (FileSystem.mk [] [(⟨true, ["in", "x.bin"]⟩, [7]), (⟨true, ["in", "y.bin"]⟩, [7])])
        ⟨true, ["store"]⟩ ⟨true, ["in", "x.bin"]⟩).2 =
      (store_file (fun _ => "da39a3ee5e6b4b0d3255bfef95601890afd80709")
        (FileSystem.mk [] [(⟨true, ["in", "x.bin"]⟩, [7]), (⟨true, ["in", "y.bin"]⟩, [7])])
        ⟨true, ["store"]⟩ ⟨true, ["in", "y.bin"]⟩).2 := by
  have h := content_store_path_is_sharded_digest
    (fun _ => "da39a3ee5e6b4b0d3255bfef95601890afd80709")
    (FileSystem.mk [] [(⟨true, ["in", "x.bin"]⟩, [7]), (⟨true, ["in", "y.bin"]⟩, [7])])
    ⟨true, ["store"]⟩ "da39a3ee5e6b4b0d3255bfef95601890afd80709"
    (by decide) (by decide) (by decide)
  refine ⟨?_, ?_⟩
  · rw [h.1]
    simp [striTake, striSlice]
  · exact h.2.2.2 ⟨true, ["in", "x.bin"]⟩ ⟨true, ["in", "y.bin"]⟩ [7] [7] rfl rfl rfl

/-- C4: evaluation of `store_file` at a concrete input.  The store hashes
the file's bytes, creates both shard directories, and copies the bytes to
`<shard1>/<shard2>/<digest>` — but the value returned to the caller is
the stored file path, not the digest, contradicting the function's own
`-> str` annotation (and the abstract `GingkoFileDataComponent.store_file`
contract it implements). -/
theorem store_file_returns_path_not_digest :
    (store_file (fun _ => "da39a3ee5e6b4b0d3255bfef95601890afd80709")
        (FileSystem.mk [⟨true, ["store"]⟩] [(⟨true, ["tmp", "f.bin"]⟩, [1, 2, 3])])
        ⟨true, ["store"]⟩ ⟨true, ["tmp", "f.bin"]⟩).2 =
      .ok ⟨true, ["store", "da", "39", "da39a3ee5e6b4b0d3255bfef95601890afd80709"]⟩ ∧
    elemBy (store_file (fun _ => "da39a3ee5e6b4b0d3255bfef95601890afd80709")
        (FileSystem.mk [⟨true, ["store"]⟩] [(⟨true, ["tmp", "f.bin"]⟩, [1, 2, 3])])
        ⟨true, ["store"]⟩ ⟨true, ["tmp", "f.bin"]⟩).1.dirs
      ⟨true, ["store", "da"]⟩ = true ∧
    elemBy (store_file (fun _ => "da39a3ee5e6b4b0d3255bfef95601890afd80709")
        (FileSystem.mk [⟨true, ["store"]⟩] [(⟨true, ["tmp", "f.bin"]⟩, [1, 2, 3])])
        ⟨true, ["store"]⟩ ⟨true, ["tmp", "f.bin"]⟩).1.dirs
      ⟨true, ["store", "da", "39"]⟩ = true ∧
    lookupFile (store_file (fun _ => "da39a3ee5e6b4b0d3255bfef95601890afd80709")
        (FileSystem.mk [⟨true, ["store"]⟩] [(⟨true, ["tmp", "f.bin"]⟩, [1, 2, 3])])
        ⟨true, ["store"]⟩ ⟨true, ["tmp", "f.bin"]⟩).1
      ⟨true, ["store", "da", "39", "da39a3ee5e6b4b0d3255bfef95601890afd80709"]⟩ =
      some [1, 2, 3] ∧
    renderPath ⟨true, ["store", "da", "39", "da39a3ee5e6b4b0d3255bfef95601890afd80709"]⟩ ≠
      "da39a3ee5e6b4b0d3255bfef95601890afd80709" :=
  ⟨rfl, by decide, by decide, by decide, by decide⟩

/-- Overwriting the binding found for a key makes lookup return the new
value. -/
theorem find?_map_replace (l : List (GPath × List Nat)) (p : GPath) (b : List Nat)
    (h : (l.find? (fun kv => decide (kv.1 = p))).isSome = true) :
    (l.map (fun kv => if kv.1 = p then (p, b) else kv)).find?
      (fun kv => decide (kv.1 = p)) = some (p, b) := by
  induction l with
  | nil => simp at h
  | cons kv rest ih =>
    by_cases hk : kv.1 = p
    · simp [List.find?, hk]
    · rw [List.find?_cons_of_neg _ (by simpa using hk)] at h
      simp only [List.map_cons, if_neg hk]
      rw [List.find?_cons_of_neg _ (by simpa using hk)]
      exact ih h

/-- Appending a binding for a key absent from the list makes lookup
return it. -/
theorem find?_append_missing (l : List (GPath × List Nat)) (p : GPath) (b : List Nat)
    (h : l.find? (fun kv => decide (kv.1 = p)) = none) :
    (l ++ [(p, b)]).find? (fun kv => decide (kv.1 = p)) = some (p, b) := by
  induction l with
  | nil => simp [List.find?]
  | cons kv rest ih =>
    by_cases hk : kv.1 = p
    · rw [List.find?_cons_of_pos _ (by simpa using hk)] at h
      simp at h
    · rw [List.find?_cons_of_neg _ (by simpa using hk)] at h
      rw [List.cons_append, List.find?_cons_of_neg _ (by simpa using hk)]
      exact ih h

/-- After `shutil.copy` to a destination, the destination holds the
copied bytes. -/
theorem lookupFile_copyFileBytes_self (fs : FileSystem) (p : GPath) (b : List Nat) :
    lookupFile (copyFileBytes fs p b) p = some b := by
  unfold copyFileBytes lookupFile
  by_cases h : (Option.map (fun kv : GPath × List Nat => kv.2)
      (List.find? (fun kv => decide (kv.1 = p)) fs.files)).isSome = true
  · have h2 : (List.find? (fun kv => decide (kv.1 = p)) fs.files).isSome = true := by
      cases hf : List.find? (fun kv => decide (kv.1 = p)) fs.files with
      | none => rw [hf] at h; simp at h
      | some kv => rfl
    rw [if_pos h, find?_map_replace fs.files p b h2]
    rfl
  · have h2 : List.find? (fun kv => decide (kv.1 = p)) fs.files = none := by
      cases hf : List.find? (fun kv => decide (kv.1 = p)) fs.files with
      | none => rfl
      | some kv => rw [hf] at h; simp at h
    rw [if_neg h, find?_append_missing fs.files p b h2]
    rfl

/-- Creating directories never changes file contents. -/
theorem lookupFile_mkdir_parents (fs : FileSystem) (p q : GPath) :
    lookupFile (mkdir_parents fs p) q = lookupFile fs q := rfl

/-- Taking the length of the left operand plus `n` from an append keeps
the whole left operand. -/
theorem take_len_add {α : Type} (l1 l2 : List α) (n : Nat) :
    (l1 ++ l2).take (l1.length + n) = l1 ++ l2.take n := by
  induction l1 with
  | nil => simp
  | cons a t ih =>
    have hlen : (a :: t).length + n = (t.length + n) + 1 := by
      simp [List.length_cons]
      omega
    rw [List.cons_append, hlen, List.take_succ_cons, ih]
    rfl

/-- Every proper prefix position yields an ancestor. -/
theorem mem_ancestorsOf (p : GPath) (n : Nat) (h : n < p.parts.length) :
    GPath.mk p.absolute (p.parts.take (n + 1)) ∈ ancestorsOf p := by
  simp only [ancestorsOf, List.mem_map, List.mem_range]
  exact ⟨n, h, rfl⟩

/-- The filesystem component of `retrieve_file` is always the one that
`_generate_file_path` produced (shard directories created), on hit and
miss alike. -/
theorem retrieve_file_fst (fs : FileSystem) (root : GPath) (d : String) :
    (retrieve_file fs root d).1 = (generate_file_path fs root d).1 := by
  unfold retrieve_file
  by_cases h : pathExists (generate_file_path fs root d).1
      (generate_file_path fs root d).2 = true
  · simp [h]
  · simp [h]

/-- Characterization of `retrieve_file` as a conditional on the shard
path's existence. -/
theorem retrieve_file_eq (fs : FileSystem) (root : GPath) (d : String) :
    retrieve_file fs root d =
      if pathExists (generate_file_path fs root d).1 (generate_file_path fs root d).2 then
        ((generate_file_path fs root d).1, .ok (generate_file_path fs root d).2)
      else
        ((generate_file_path fs root d).1, .error (.fileNotFound d)) := rfl

/-- C8: `retrieve` of a digest with no file stored at its shard location
fails with a `FileNotFound` error carrying that digest; `retrieve` of a
digest whose shard location is occupied returns exactly that recomputed
shard path; in particular, after `store` of a file whose bytes hash to
`d`, `retrieve d` returns the stored file's shard path. -/
theorem retrieve_file_notfound_or_stored
    (sha1 : List Nat → String) (fs : FileSystem) (root : GPath) (d : String)
    (h2 : plainComponent (striTake 2 d) = true)
    (h24 : plainComponent (striSlice 2 4 d) = true)
    (hd : plainComponent d = true) :
    (pathExists fs ⟨root.absolute, root.parts ++ [striTake 2 d, striSlice 2 4 d, d]⟩ = false →
      (retrieve_file fs root d).2 = .error (.fileNotFound d)) ∧
    (pathExists fs ⟨root.absolute, root.parts ++ [striTake 2 d, striSlice 2 4 d, d]⟩ = true →
      (retrieve_file fs root d).2 =
        .ok ⟨root.absolute, root.parts ++ [striTake 2 d, striSlice 2 4 d, d]⟩) ∧
    (∀ f b, read_bytes fs f = .ok b → sha1 b = d →
      (retrieve_file (store_file sha1 fs root f).1 root d).2 =
        .ok ⟨root.absolute, root.parts ++ [striTake 2 d, striSlice 2 4 d, d]⟩) := by
  have hgen := generate_file_path_parts fs root d h2 h24 hd
  have hparent : joinStr (joinStr root (striTake 2 d)) (striSlice 2 4 d) =
      ⟨root.absolute, root.parts ++ [striTake 2 d, striSlice 2 4 d]⟩ := by
    rw [joinStr_plain _ _ h2, joinStr_plain _ _ h24]
    simp
  have hanc : elemBy
      (ancestorsOf ⟨root.absolute, root.parts ++ [striTake 2 d, striSlice 2 4 d]⟩)
      (⟨root.absolute, root.parts ++ [striTake 2 d, striSlice 2 4 d, d]⟩ : GPath) = false := by
    apply elemBy_ancestorsOf_eq_false
    simp
  have hcond : ∀ fs0 : FileSystem,
      pathExists (generate_file_path fs0 root d).1 (generate_file_path fs0 root d).2 =
        pathExists fs0 ⟨root.absolute, root.parts ++ [striTake 2 d, striSlice 2 4 d, d]⟩ := by
    intro fs0
    have hfst : (generate_file_path fs0 root d).1 =
        mkdir_parents fs0 (joinStr (joinStr root (striTake 2 d)) (striSlice 2 4 d)) := rfl
    have hsnd : (generate_file_path fs0 root d).2 =
        ⟨root.absolute, root.parts ++ [striTake 2 d, striSlice 2 4 d, d]⟩ :=
      generate_file_path_parts fs0 root d h2 h24 hd
    rw [hfst, hsnd, hparent, pathExists_mkdir_parents, hanc, Bool.or_false]
  refine ⟨?_, ?_, ?_⟩
  · intro hmiss
    rw [retrieve_file_eq, hcond fs, hmiss]
    simp
  · intro hhit
    rw [retrieve_file_eq, hcond fs, hhit]
    simp [hgen]
  · intro f b hrf hsha
    have hstore : (store_file sha1 fs root f).1 =
        copyFileBytes (generate_file_path fs root (sha1 b)).1
          (generate_file_path fs root (sha1 b)).2 b := by
      simp only [store_file, hrf]
    have hlf : lookupFile (store_file sha1 fs root f).1
        ⟨root.absolute, root.parts ++ [striTake 2 d, striSlice 2 4 d, d]⟩ = some b := by
      rw [hstore, hsha, hgen]
      exact lookupFile_copyFileBytes_self _ _ b
    have hpe : pathExists (store_file sha1 fs root f).1
        ⟨root.absolute, root.parts ++ [striTake 2 d, striSlice 2 4 d, d]⟩ = true := by
      simp [pathExists, hlf]
    have hsnd : (generate_file_path (store_file sha1 fs root f).1 root d).2 =
        ⟨root.absolute, root.parts ++ [striTake 2 d, striSlice 2 4 d, d]⟩ :=
      generate_file_path_parts _ root d h2 h24 hd
    rw [retrieve_file_eq, hcond (store_file sha1 fs root f).1, hpe]
    simp [hsnd]

/-- Witness for `retrieve_file_notfound_or_stored`: on an empty store the
digest of the empty input is not found (error carries the digest), and
after storing a file it is retrieved at the shard path. -/
theorem retrieve_file_notfound_or_stored_witness :
    (retrieve_file (FileSystem.mk [] []) ⟨true, ["store"]⟩
        "da39a3ee5e6b4b0d3255bfef95601890afd80709").2 =
      .error (.fileNotFound "da39a3ee5e6b4b0d3255bfef95601890afd80709") ∧
    (retrieve_file
        (store_file (fun _ => "da39a3ee5e6b4b0d3255bfef95601890afd80709")
          (FileSystem.mk [] [(⟨true, ["tmp", "f.bin"]⟩, [])])
          ⟨true, ["store"]⟩ ⟨true, ["tmp", "f.bin"]⟩).1
        ⟨true, ["store"]⟩ "da39a3ee5e6b4b0d3255bfef95601890afd80709").2 =
      .ok ⟨true, ["store", "da", "39", "da39a3ee5e6b4b0d3255bfef95601890afd80709"]⟩ := by
  constructor
  · have h := (retrieve_file_notfound_or_stored
      (fun _ => "da39a3ee5e6b4b0d3255bfef95601890afd80709")
      (FileSystem.mk [] []) ⟨true, ["store"]⟩
      "da39a3ee5e6b4b0d3255bfef95601890afd80709"
      (by decide) (by decide) (by decide)).1 (by decide)
    simpa [striTake, striSlice] using h
  · have h := (retrieve_file_notfound_or_stored
      (fun _ => "da39a3ee5e6b4b0d3255bfef95601890afd80709")
      (FileSystem.mk [] [(⟨true, ["tmp", "f.bin"]⟩, [])])
      ⟨true, ["store"]⟩ "da39a3ee5e6b4b0d3255bfef95601890afd80709"
      (by decide) (by decide) (by decide)).2.2
      ⟨true, ["tmp", "f.bin"]⟩ [] rfl rfl
    simpa [striTake, striSlice] using h

/-- C9: calling `retrieve_file` mutates the filesystem even on a miss:
the two shard directories `<root>/d[0:2]` and `<root>/d[0:2]/d[2:4]` are
present in the resulting state (hit or miss alike, before any
`FileNotFound` error is raised), and whenever the inner shard directory
was absent the filesystem is actually changed. -/
theorem retrieve_file_creates_shard_dirs
    (fs : FileSystem) (root : GPath) (d : String)
    (h2 : plainComponent (striTake 2 d) = true)
    (h24 : plainComponent (striSlice 2 4 d) = true) :
    elemBy (retrieve_file fs root d).1.dirs
      ⟨root.absolute, root.parts ++ [striTake 2 d]⟩ = true ∧
    elemBy (retrieve_file fs root d).1.dirs
      ⟨root.absolute, root.parts ++ [striTake 2 d, striSlice 2 4 d]⟩ = true ∧
    (elemBy fs.dirs ⟨root.absolute, root.parts ++ [striTake 2 d, striSlice 2 4 d]⟩ = false →
      (retrieve_file fs root d).1 ≠ fs) := by
  have hparent : joinStr (joinStr root (striTake 2 d)) (striSlice 2 4 d) =
      ⟨root.absolute, root.parts ++ [striTake 2 d, striSlice 2 4 d]⟩ := by
    rw [joinStr_plain _ _ h2, joinStr_plain _ _ h24]
    simp
  have hfst : (retrieve_file fs root d).1 =
      mkdir_parents fs (joinStr (joinStr root (striTake 2 d)) (striSlice 2 4 d)) :=
    retrieve_file_fst fs root d
  have hgrand : (⟨root.absolute, root.parts ++ [striTake 2 d]⟩ : GPath) ∈
      ancestorsOf ⟨root.absolute, root.parts ++ [striTake 2 d, striSlice 2 4 d]⟩ := by
    have hmem := mem_ancestorsOf
      ⟨root.absolute, root.parts ++ [striTake 2 d, striSlice 2 4 d]⟩
      root.parts.length (by simp)
    have htake : (root.parts ++ [striTake 2 d, striSlice 2 4 d]).take
        (root.parts.length + 1) = root.parts ++ [striTake 2 d] := by
      rw [take_len_add]
      rfl
    simpa [htake] using hmem
  have hpar : (⟨root.absolute, root.parts ++ [striTake 2 d, striSlice 2 4 d]⟩ : GPath) ∈
      ancestorsOf ⟨root.absolute, root.parts ++ [striTake 2 d, striSlice 2 4 d]⟩ := by
    have hmem := mem_ancestorsOf
      ⟨root.absolute, root.parts ++ [striTake 2 d, striSlice 2 4 d]⟩
      (root.parts.length + 1) (by simp)
    have htake : (root.parts ++ [striTake 2 d, striSlice 2 4 d]).take
        (root.parts.length + 1 + 1) = root.parts ++ [striTake 2 d, striSlice 2 4 d] := by
      rw [Nat.add_assoc, take_len_add]
      rfl
    simpa [htake] using hmem
  have hdirs : ∀ q : GPath, elemBy (retrieve_file fs root d).1.dirs q =
      (elemBy fs.dirs q ||
        elemBy (ancestorsOf ⟨root.absolute, root.parts ++ [striTake 2 d, striSlice 2 4 d]⟩) q) := by
    intro q
    rw [hfst, hparent]
    simp only [mkdir_parents, elemBy_foldl_insert]
  refine ⟨?_, ?_, ?_⟩
  · rw [hdirs]
    rw [(elemBy_eq_true_iff _ _).mpr hgrand]
    simp
  · rw [hdirs]
    rw [(elemBy_eq_true_iff _ _).mpr hpar]
    simp
  · intro habs hcontra
    have h1 : elemBy (retrieve_file fs root d).1.dirs
        ⟨root.absolute, root.parts ++ [striTake 2 d, striSlice 2 4 d]⟩ = true := by
      rw [hdirs, (elemBy_eq_true_iff _ _).mpr hpar]
      simp
    rw [hcontra, habs] at h1
    exact Bool.false_ne_true h1

/-- Witness for `retrieve_file_creates_shard_dirs`: retrieving a digest
from an empty store fails, yet leaves both shard directories created. -/
theorem retrieve_file_creates_shard_dirs_witness :
    elemBy (retrieve_file (FileSystem.mk [] []) ⟨true, ["store"]⟩
        "da39a3ee5e6b4b0d3255bfef95601890afd80709").1.dirs
      ⟨true, ["store", "da"]⟩ = true ∧
    elemBy (retrieve_file (FileSystem.mk [] []) ⟨true, ["store"]⟩
        "da39a3ee5e6b4b0d3255bfef95601890afd80709").1.dirs
      ⟨true, ["store", "da", "39"]⟩ = true ∧
    (retrieve_file (FileSystem.mk [] []) ⟨true, ["store"]⟩
        "da39a3ee5e6b4b0d3255bfef95601890afd80709").1 ≠ FileSystem.mk [] [] := by
  have h := retrieve_file_creates_shard_dirs (FileSystem.mk [] []) ⟨true, ["store"]⟩
    "da39a3ee5e6b4b0d3255bfef95601890afd80709" (by decide) (by decide)
  refine ⟨?_, ?_, ?_⟩
  · simpa [striTake, striSlice] using h.1
  · simpa [striTake, striSlice] using h.2.1
  · have := h.2.2 (by decide)
    simpa using this

/-- C5: classification of creation events by joined suffix.  For an
untracked path: a created file whose joined suffixes are `.tar` or
`.tar.gz` yields exactly one tracked extraction of type `tar`; `.zip`
yields type `zip`; any other suffix (e.g. `.txt`) is discarded and
produces no registry entry; a created directory always yields type
`directory`. -/
theorem classifier_by_suffix
    (readTar readZip readDir : GPath → Except String StatInfo)
    (p : GPath) (s : RedisState) (i : StatInfo)
    (hnt : check_path_tracked s p = false) :
    ((file_extension_of p = ".tar" ∨ file_extension_of p = ".tar.gz") →
      readTar p = .ok i →
      on_created readTar readZip readDir s (.fileCreated p) =
        .ok ⟨sadd s.keys (renderPath p),
             hsetData s.data (redisDataKey (renderPath p))
               (toRecord ⟨p, .tar, i.size, i.files⟩)⟩) ∧
    (file_extension_of p = ".zip" → readZip p = .ok i →
      on_created readTar readZip readDir s (.fileCreated p) =
        .ok ⟨sadd s.keys (renderPath p),
             hsetData s.data (redisDataKey (renderPath p))
               (toRecord ⟨p, .zip, i.size, i.files⟩)⟩) ∧
    (elemBy VALID_FILE_EXTRACTION_EXTENSIONS (file_extension_of p) = false →
      on_created readTar readZip readDir s (.fileCreated p) = .ok s) ∧
    (readDir p = .ok i →
      on_created readTar readZip readDir s (.dirCreated p) =
        .ok ⟨sadd s.keys (renderPath p),
             hsetData s.data (redisDataKey (renderPath p))
               (toRecord ⟨p, .directory, i.size, i.files⟩)⟩) := by
  refine ⟨?_, ?_, ?_, ?_⟩
  · rintro (hext | hext) hread
    · have hval : elemBy VALID_FILE_EXTRACTION_EXTENSIONS ".tar" = true := by decide
      simp [on_created, handle_potential_extraction_file, hext, hval,
        extractionTypeOfExtension, handle_tar_extraction_file, hread,
        Except.map, tryAddSkip, add_tracking_for_extraction, hnt]
    · have hval : elemBy VALID_FILE_EXTRACTION_EXTENSIONS ".tar.gz" = true := by decide
      simp [on_created, handle_potential_extraction_file, hext, hval,
        extractionTypeOfExtension, handle_tar_extraction_file, hread,
        Except.map, tryAddSkip, add_tracking_for_extraction, hnt]
  · intro hext hread
    have hval : elemBy VALID_FILE_EXTRACTION_EXTENSIONS ".zip" = true := by decide
    simp [on_created, handle_potential_extraction_file, hext, hval,
      extractionTypeOfExtension, handle_zip_extraction_file, hread,
      Except.map, tryAddSkip, add_tracking_for_extraction, hnt]
  · intro hval
    simp [on_created, handle_potential_extraction_file, hval]
  · intro hread
    simp [on_created, handle_potential_extraction_directory,
      handle_directory_extraction, hread, Except.map, tryAddSkip,
      add_tracking_for_extraction, hnt]

/-- Witness for `classifier_by_suffix`: concrete events for `a.tar`,
`a.tar.gz`, `a.zip`, `a.txt` and a directory under `/mnt/data`. -/
theorem classifier_by_suffix_witness :
    on_created (fun _ => .ok ⟨10, 2⟩) (fun _ => .ok ⟨10, 2⟩) (fun _ => .ok ⟨10, 2⟩)
      (RedisState.mk [] []) (.fileCreated ⟨true, ["mnt", "data", "a.tar"]⟩) =
      .ok ⟨["/mnt/data/a.tar"],
           [("gingko-tracking::/mnt/data/a.tar",
             ExtractionRecord.mk "/mnt/data/a.tar" .tar 10 2)]⟩ ∧
    on_created (fun _ => .ok ⟨10, 2⟩) (fun _ => .ok ⟨10, 2⟩) (fun _ => .ok ⟨10, 2⟩)
      (RedisState.mk [] []) (.fileCreated ⟨true, ["mnt", "data", "a.zip"]⟩) =
      .ok ⟨["/mnt/data/a.zip"],
           [("gingko-tracking::/mnt/data/a.zip",
             ExtractionRecord.mk "/mnt/data/a.zip" .zip 10 2)]⟩ ∧
    on_created (fun _ => .ok ⟨10, 2⟩) (fun _ => .ok ⟨10, 2⟩) (fun _ => .ok ⟨10, 2⟩)
      (RedisState.mk [] []) (.fileCreated ⟨true, ["mnt", "data", "a.txt"]⟩) =
      .ok (RedisState.mk [] []) ∧
    on_created (fun _ => .ok ⟨10, 2⟩) (fun _ => .ok ⟨10, 2⟩) (fun _ => .ok ⟨10, 2⟩)
      (RedisState.mk [] []) (.dirCreated ⟨true, ["mnt", "data", "adir"]⟩) =
      .ok ⟨["/mnt/data/adir"],
           [("gingko-tracking::/mnt/data/adir",
             ExtractionRecord.mk "/mnt/data/adir" .directory 10 2)]⟩ := by
  have h1 := (classifier_by_suffix (fun _ => .ok ⟨10, 2⟩) (fun _ => .ok ⟨10, 2⟩)
    (fun _ => .ok ⟨10, 2⟩) ⟨true, ["mnt", "data", "a.tar"]⟩ (RedisState.mk [] [])
    ⟨10, 2⟩ (by decide)).1 (Or.inl (by decide)) rfl
  have h2 := (classifier_by_suffix (fun _ => .ok ⟨10, 2⟩) (fun _ => .ok ⟨10, 2⟩)
    (fun _ => .ok ⟨10, 2⟩) ⟨true, ["mnt", "data", "a.zip"]⟩ (RedisState.mk [] [])
    ⟨10, 2⟩ (by decide)).2.1 (by decide) rfl
  have h3 := (classifier_by_suffix (fun _ => .ok ⟨10, 2⟩) (fun _ => .ok ⟨10, 2⟩)
    (fun _ => .ok ⟨10, 2⟩) ⟨true, ["mnt", "data", "a.txt"]⟩ (RedisState.mk [] [])
    ⟨10, 2⟩ (by decide)).2.2.1 (by decide)
  have h4 := (classifier_by_suffix (fun _ => .ok ⟨10, 2⟩) (fun _ => .ok ⟨10, 2⟩)
    (fun _ => .ok ⟨10, 2⟩) ⟨true, ["mnt", "data", "adir"]⟩ (RedisState.mk [] [])
    ⟨10, 2⟩ (by decide)).2.2.2 rfl
  refine ⟨?_, ?_, ?_, ?_⟩
  · rw [h1]
    rfl
  · rw [h2]
    rfl
  · exact h3
  · rw [h4]
    rfl

/-- C6 counterexample: a tar-open failure during classification is NOT
logged-and-dropped — nothing in `handle_potential_extraction_file`
catches it, so the error propagates out of `on_created` instead of the
handler returning normally with the event dropped. -/
theorem watcher_unpack_error_escapes_counterexample :
    on_created (fun _ => .error "tarfile.ReadError")
      (fun _ => .ok ⟨0, 0⟩) (fun _ => .ok ⟨0, 0⟩)
      (RedisState.mk [] [])
      (.fileCreated ⟨true, ["mnt", "data", "bad.tar"]⟩) =
      .error "tarfile.ReadError" := rfl

/-- C6 (amended): `AlreadyTracked` raised by `add` is the only error the
creation handlers catch — it is treated as a skip that leaves the state
unchanged; any other unpack or read error during classification (tar,
zip or directory) is not caught and propagates out of `on_created`. -/
theorem watcher_catches_only_already_tracked
    (readTar readZip readDir : GPath → Except String StatInfo)
    (p : GPath) (s : RedisState) (i : StatInfo) (msg : String) :
    ((file_extension_of p = ".tar" ∨ file_extension_of p = ".tar.gz") →
      readTar p = .ok i → check_path_tracked s p = true →
      on_created readTar readZip readDir s (.fileCreated p) = .ok s) ∧
    (file_extension_of p = ".zip" → readZip p = .ok i →
      check_path_tracked s p = true →
      on_created readTar readZip readDir s (.fileCreated p) = .ok s) ∧
    (readDir p = .ok i → check_path_tracked s p = true →
      on_created readTar readZip readDir s (.dirCreated p) = .ok s) ∧
    ((file_extension_of p = ".tar" ∨ file_extension_of p = ".tar.gz") →
      readTar p = .error msg →
      on_created readTar readZip readDir s (.fileCreated p) = .error msg) ∧
    (file_extension_of p = ".zip" → readZip p = .error msg →
      on_created readTar readZip readDir s (.fileCreated p) = .error msg) ∧
    (readDir p = .error msg →
      on_created readTar readZip readDir s (.dirCreated p) = .error msg) := by
  refine ⟨?_, ?_, ?_, ?_, ?_, ?_⟩
  · rintro (hext | hext) hread htr
    · have hval : elemBy VALID_FILE_EXTRACTION_EXTENSIONS ".tar" = true := by decide
      simp [on_created, handle_potential_extraction_file, hext, hval,
        extractionTypeOfExtension, handle_tar_extraction_file, hread,
        Except.map, tryAddSkip, add_tracking_for_extraction, htr]
    · have hval : elemBy VALID_FILE_EXTRACTION_EXTENSIONS ".tar.gz" = true := by decide
      simp [on_created, handle_potential_extraction_file, hext, hval,
        extractionTypeOfExtension, handle_tar_extraction_file, hread,
        Except.map, tryAddSkip, add_tracking_for_extraction, htr]
  · intro hext hread htr
    have hval : elemBy VALID_FILE_EXTRACTION_EXTENSIONS ".zip" = true := by decide
    simp [on_created, handle_potential_extraction_file, hext, hval,
      extractionTypeOfExtension, handle_zip_extraction_file, hread,
      Except.map, tryAddSkip, add_tracking_for_extraction, htr]
  · intro hread htr
    simp [on_created, handle_potential_extraction_directory,
      handle_directory_extraction, hread, Except.map, tryAddSkip,
      add_tracking_for_extraction, htr]
  · rintro (hext | hext) hread
    · have hval : elemBy VALID_FILE_EXTRACTION_EXTENSIONS ".tar" = true := by decide
      simp [on_created, handle_potential_extraction_file, hext, hval,
        extractionTypeOfExtension, handle_tar_extraction_file, hread, Except.map]
    · have hval : elemBy VALID_FILE_EXTRACTION_EXTENSIONS ".tar.gz" = true := by decide
      simp [on_created, handle_potential_extraction_file, hext, hval,
        extractionTypeOfExtension, handle_tar_extraction_file, hread, Except.map]
  · intro hext hread
    have hval : elemBy VALID_FILE_EXTRACTION_EXTENSIONS ".zip" = true := by decide
    simp [on_created, handle_potential_extraction_file, hext, hval,
      extractionTypeOfExtension, handle_zip_extraction_file, hread, Except.map]
  · intro hread
    simp [on_created, handle_potential_extraction_directory,
      handle_directory_extraction, hread, Except.map]

/-- Witness for `watcher_catches_only_already_tracked`: a duplicate
creation event for an already-tracked tar path is skipped without error,
and a zip-open failure for another path propagates. -/
theorem watcher_catches_only_already_tracked_witness :
    on_created (fun _ => .ok ⟨10, 2⟩) (fun _ => .error "zipfile.BadZipFile")
      (fun _ => .ok ⟨10, 2⟩)
      (RedisState.mk ["/mnt/data/a.tar"]
        [("gingko-tracking::/mnt/data/a.tar",
          ExtractionRecord.mk "/mnt/data/a.tar" .tar 10 2)])
      (.fileCreated ⟨true, ["mnt", "data", "a.tar"]⟩) =
      .ok (RedisState.mk ["/mnt/data/a.tar"]
        [("gingko-tracking::/mnt/data/a.tar",
          ExtractionRecord.mk "/mnt/data/a.tar" .tar 10 2)]) ∧
    on_created (fun _ => .ok ⟨10, 2⟩) (fun _ => .error "zipfile.BadZipFile")
      (fun _ => .ok ⟨10, 2⟩)
      (RedisState.mk ["/mnt/data/a.tar"]
        [("gingko-tracking::/mnt/data/a.tar",
          ExtractionRecord.mk "/mnt/data/a.tar" .tar 10 2)])
      (.fileCreated ⟨true, ["mnt", "data", "b.zip"]⟩) =
      .error "zipfile.BadZipFile" :=
  ⟨(watcher_catches_only_already_tracked (fun _ => .ok ⟨10, 2⟩)
      (fun _ => .error "zipfile.BadZipFile") (fun _ => .ok ⟨10, 2⟩)
      ⟨true, ["mnt", "data", "a.tar"]⟩
      (RedisState.mk ["/mnt/data/a.tar"]
        [("gingko-tracking::/mnt/data/a.tar",
          ExtractionRecord.mk "/mnt/data/a.tar" .tar 10 2)])
      ⟨10, 2⟩ "zipfile.BadZipFile").1 (Or.inl (by decide)) rfl (by decide),
   (watcher_catches_only_already_tracked (fun _ => .ok ⟨10, 2⟩)
      (fun _ => .error "zipfile.BadZipFile") (fun _ => .ok ⟨10, 2⟩)
      ⟨true, ["mnt", "data", "b.zip"]⟩
      (RedisState.mk ["/mnt/data/a.tar"]
        [("gingko-tracking::/mnt/data/a.tar",
          ExtractionRecord.mk "/mnt/data/a.tar" .tar 10 2)])
      ⟨10, 2⟩ "zipfile.BadZipFile").2.2.2.2.1 (by decide) rfl⟩

/-- Characters of an appended string. -/
theorem toList_append (a b : String) :
    (a ++ b).toList = a.toList ++ b.toList := by
  cases a
  cases b
  rfl

/-- Rebuilding a string from its characters is the identity. -/
theorem mk_toList (s : String) : String.mk s.toList = s := rfl

/-- Splitting never yields an empty list of groups. -/
theorem splitOnChar_ne_nil (sep : Char) (cs : List Char) :
    splitOnChar sep cs ≠ [] := by
  cases cs with
  | nil => simp [splitOnChar]
  | cons c rest =>
    simp only [splitOnChar]
    by_cases hc : c = sep
    · simp [hc]
    · simp only [if_neg hc]
      cases splitOnChar sep rest <;> simp

/-- Splitting a list that starts with a separator-free group followed by
the separator peels off that group. -/
theorem splitOnChar_sep_append (sep : Char) (g t : List Char)
    (h : ∀ c ∈ g, c ≠ sep) :
    splitOnChar sep (g ++ sep :: t) = g :: splitOnChar sep t := by
  induction g with
  | nil => simp [splitOnChar]
  | cons c g2 ih =>
    have hc : c ≠ sep := h c (List.mem_cons_self c g2)
    have hrec := ih (fun x hx => h x (List.mem_cons_of_mem c hx))
    simp only [List.cons_append, splitOnChar, if_neg hc]
    rw [show splitOnChar sep (g2.append (sep :: t)) =
      g2 :: splitOnChar sep t from hrec]

/-- Splitting a list ending in a separator appends one empty group. -/
theorem splitOnChar_append_sep (sep : Char) (l : List Char) :
    splitOnChar sep (l ++ [sep]) = splitOnChar sep l ++ [[]] := by
  induction l with
  | nil => simp [splitOnChar]
  | cons c rest ih =>
    by_cases hc : c = sep
    · simp only [List.cons_append, splitOnChar, if_pos hc]
      rw [show splitOnChar sep (rest.append [sep]) =
        splitOnChar sep rest ++ [[]] from ih]
    · simp only [List.cons_append, splitOnChar, if_neg hc]
      rw [show splitOnChar sep (rest.append [sep]) =
        splitOnChar sep rest ++ [[]] from ih]
      cases hr : splitOnChar sep rest with
      | nil => exact absurd hr (splitOnChar_ne_nil sep rest)
      | cons g gs => simp

/-- Splitting the `/`-join of plain components recovers the components'
character lists. -/
theorem splitOnChar_joinComponents (parts : List String)
    (hne : parts ≠ [])
    (hpl : ∀ p ∈ parts, plainComponent p = true) :
    splitOnChar '/' (joinComponents parts).toList =
      parts.map String.toList := by
  induction parts with
  | nil => exact absurd rfl hne
  | cons p rest ih =>
    have hp := hpl p (List.mem_cons_self p rest)
    have hpsep : ∀ c ∈ p.toList, c ≠ '/' := by
      intro c hc
      have := (by
        simp only [plainComponent, Bool.and_eq_true, List.all_eq_true,
          decide_eq_true_eq] at hp
        exact hp.2 c hc : ¬ c = '/')
      exact this
    cases rest with
    | nil =>
      simp only [joinComponents, List.map]
      exact splitOnChar_of_no_sep '/' p.toList hpsep
    | cons q rest2 =>
      have hrec := ih (by simp)
        (fun x hx => hpl x (List.mem_cons_of_mem p hx))
      simp only [joinComponents, List.map]
      rw [show p ++ "/" ++ joinComponents (q :: rest2) =
        p ++ ("/" ++ joinComponents (q :: rest2)) from by
          rw [String.append_assoc]]
      rw [toList_append]
      have hslash : ("/" ++ joinComponents (q :: rest2)).toList =
          '/' :: (joinComponents (q :: rest2)).toList := by
        rw [toList_append]
        rfl
      rw [hslash, splitOnChar_sep_append '/' _ _ hpsep, hrec]
      simp

/-- Unpack the three facts of a plain component. -/
theorem plainComponent_spec (s : String) (h : plainComponent s = true) :
    s ≠ "" ∧ s ≠ "." ∧ ∀ c ∈ s.toList, c ≠ '/' := by
  simp only [plainComponent, Bool.and_eq_true, List.all_eq_true,
    decide_eq_true_eq] at h
  exact ⟨h.1.1, h.1.2, fun c hc => h.2 c hc⟩

/-- A nonempty string has a nonempty character list. -/
theorem toList_ne_nil (s : String) (h : s ≠ "") : s.toList ≠ [] := by
  intro hl
  exact h (by rw [← mk_toList s, hl])

/-- The join of plain components never starts with a separator. -/
theorem joinComponents_head_ne_slash (parts : List String)
    (hne : parts ≠ []) (hpl : ∀ p ∈ parts, plainComponent p = true) :
    ((joinComponents parts).toList.head? = some '/') = False := by
  simp only [eq_iff_iff, iff_false]
  intro hh
  cases parts with
  | nil => exact hne rfl
  | cons p rest =>
    obtain ⟨hp1, _, hp3⟩ := plainComponent_spec p (hpl p (List.mem_cons_self p rest))
    obtain ⟨c, cs, hpt⟩ : ∃ c cs, p.toList = c :: cs := by
      cases hx : p.toList with
      | nil => exact absurd hx (toList_ne_nil p hp1)
      | cons a b => exact ⟨a, b, rfl⟩
    cases rest with
    | nil =>
      simp only [joinComponents] at hh
      rw [hpt] at hh
      simp at hh
      exact hp3 c (by rw [hpt]; exact List.mem_cons_self c cs) hh
    | cons q rest2 =>
      simp only [joinComponents] at hh
      rw [String.append_assoc, toList_append, hpt] at hh
      simp at hh
      exact hp3 c (by rw [hpt]; exact List.mem_cons_self c cs) hh

/-- Parsing the `/`-join of plain components recovers exactly those
components as a relative path. -/
theorem parsePathStr_joinComponents (parts : List String)
    (hne : parts ≠ []) (hpl : ∀ p ∈ parts, plainComponent p = true) :
    parsePathStr (joinComponents parts) = ⟨false, parts⟩ := by
  have hsplit := splitOnChar_joinComponents parts hne hpl
  have hhead := joinComponents_head_ne_slash parts hne hpl
  have hfilter : ((parts.map String.toList).filter
      (fun g => decide (g ≠ [] ∧ g ≠ ['.']))) = parts.map String.toList := by
    rw [List.filter_eq_self]
    intro g hg
    obtain ⟨x, hx, hgx⟩ := List.mem_map.mp hg
    obtain ⟨hx1, hx2, _⟩ := plainComponent_spec x (hpl x hx)
    subst hgx
    simp only [decide_eq_true_eq]
    exact ⟨toList_ne_nil x hx1,
      fun hdd => hx2 (by rw [← mk_toList x, hdd])⟩
  have hmap : (parts.map String.toList).map String.mk = parts := by
    rw [List.map_map]
    have hpt : ∀ x ∈ parts, (String.mk ∘ String.toList) x = id x :=
      fun x _ => mk_toList x
    rw [List.map_congr_left hpt, List.map_id]
  simp only [parsePathStr, hsplit, hfilter, hmap, hhead, decide_False]

/-- The joined components of a nonempty list of plain components form a
nonempty string. -/
theorem joinComponents_toList_ne_nil (parts : List String)
    (hne : parts ≠ []) (hpl : ∀ p ∈ parts, plainComponent p = true) :
    (joinComponents parts).toList ≠ [] := by
  cases parts with
  | nil => exact absurd rfl hne
  | cons p rest =>
    obtain ⟨hp1, _, _⟩ := plainComponent_spec p (hpl p (List.mem_cons_self p rest))
    cases rest with
    | nil => exact toList_ne_nil p hp1
    | cons q rest2 =>
      simp only [joinComponents]
      rw [String.append_assoc, toList_append]
      intro hcontra
      exact toList_ne_nil p hp1 (List.append_eq_nil.mp hcontra).1

/-- The join of plain components never ends with a separator. -/
theorem joinComponents_getLast_ne_slash (parts : List String)
    (hne : parts ≠ []) (hpl : ∀ p ∈ parts, plainComponent p = true) :
    ((joinComponents parts).toList.getLast? = some '/') = False := by
  simp only [eq_iff_iff, iff_false]
  induction parts with
  | nil => intro _; exact hne rfl
  | cons p rest ih =>
    intro hh
    obtain ⟨hp1, _, hp3⟩ := plainComponent_spec p (hpl p (List.mem_cons_self p rest))
    cases rest with
    | nil =>
      simp only [joinComponents] at hh
      obtain ⟨hlast, heq⟩ := List.mem_getLast?_eq_getLast hh
      exact hp3 '/' (heq ▸ List.getLast_mem hlast) rfl
    | cons q rest2 =>
      have hrecL := joinComponents_toList_ne_nil (q :: rest2) (by simp)
        (fun x hx => hpl x (List.mem_cons_of_mem p hx))
      simp only [joinComponents] at hh
      rw [String.append_assoc, toList_append,
        show ("/" ++ joinComponents (q :: rest2)).toList =
          '/' :: (joinComponents (q :: rest2)).toList from by rw [toList_append]; rfl,
        List.getLast?_append_cons] at hh
      rw [show ('/' :: (joinComponents (q :: rest2)).toList) =
        ['/'] ++ (joinComponents (q :: rest2)).toList from rfl,
        List.getLast?_append_of_ne_nil ['/'] hrecL] at hh
      exact ih (by simp) (fun x hx => hpl x (List.mem_cons_of_mem p hx)) hh

/-- Parsing the `/`-join of plain components with a trailing slash (a zip
directory entry name) also recovers exactly those components. -/
theorem parsePathStr_joinComponents_slash (parts : List String)
    (hne : parts ≠ []) (hpl : ∀ p ∈ parts, plainComponent p = true) :
    parsePathStr (joinComponents parts ++ "/") = ⟨false, parts⟩ := by
  have hsplit := splitOnChar_joinComponents parts hne hpl
  have htl : (joinComponents parts ++ "/").toList =
      (joinComponents parts).toList ++ ['/'] := by
    rw [toList_append]
    rfl
  have hsplit2 : splitOnChar '/' (joinComponents parts ++ "/").toList =
      parts.map String.toList ++ [[]] := by
    rw [htl, splitOnChar_append_sep, hsplit]
  have hhead : ((joinComponents parts ++ "/").toList.head? = some '/') = False := by
    simp only [eq_iff_iff, iff_false]
    intro hh
    obtain ⟨c, cs, hjc⟩ : ∃ c cs, (joinComponents parts).toList = c :: cs := by
      cases hx : (joinComponents parts).toList with
      | nil => exact absurd hx (joinComponents_toList_ne_nil parts hne hpl)
      | cons a b => exact ⟨a, b, rfl⟩
    rw [htl, hjc] at hh
    simp at hh
    have := joinComponents_head_ne_slash parts hne hpl
    rw [hjc] at this
    simp [hh] at this
  have hfilter : ((parts.map String.toList ++ [[]]).filter
      (fun g => decide (g ≠ [] ∧ g ≠ ['.']))) = parts.map String.toList := by
    rw [List.filter_append]
    have h1 : (parts.map String.toList).filter
        (fun g => decide (g ≠ [] ∧ g ≠ ['.'])) = parts.map String.toList := by
      rw [List.filter_eq_self]
      intro g hg
      obtain ⟨x, hx, hgx⟩ := List.mem_map.mp hg
      obtain ⟨hx1, hx2, _⟩ := plainComponent_spec x (hpl x hx)
      subst hgx
      simp only [decide_eq_true_eq]
      exact ⟨toList_ne_nil x hx1,
        fun hdd => hx2 (by rw [← mk_toList x, hdd])⟩
    rw [h1]
    simp
  have hmap : (parts.map String.toList).map String.mk = parts := by
    rw [List.map_map]
    have hpt : ∀ x ∈ parts, (String.mk ∘ String.toList) x = id x :=
      fun x _ => mk_toList x
    rw [List.map_congr_left hpt, List.map_id]
  simp only [parsePathStr, hsplit2, hfilter, hmap, hhead, decide_False]

/-- A zip member name with a trailing slash is a directory entry. -/
theorem zipMemberIsDir_slash (parts : List String) (b : List Nat) :
    zipMemberIsDir ⟨joinComponents parts ++ "/", b⟩ = true := by
  simp only [zipMemberIsDir]
  rw [toList_append,
    show ("/" : String).toList = ['/'] from rfl]
  rw [List.getLast?_append_cons]
  simp

/-- A zip member name made of plain components without a trailing slash
is a file entry. -/
theorem zipMemberIsDir_plain (parts : List String) (b : List Nat)
    (hne : parts ≠ []) (hpl : ∀ p ∈ parts, plainComponent p = true) :
    zipMemberIsDir ⟨joinComponents parts, b⟩ = false := by
  simp only [zipMemberIsDir]
  have := joinComponents_getLast_ne_slash parts hne hpl
  simp only [eq_iff_iff, iff_false] at this
  simpa using this

/-- Appending the empty string is the identity. -/
theorem string_append_empty (s : String) : s ++ "" = s := by
  cases s with
  | mk l =>
    show String.mk (l ++ []) = String.mk l
    rw [List.append_nil]

/-- Model of `relative_to` on a path extended below the base: it strips
the base and returns the relative remainder. -/
theorem relative_to_append (a : Bool) (rp t : List String) :
    relative_to ⟨a, rp ++ t⟩ ⟨a, rp⟩ = .ok ⟨false, t⟩ := by
  simp only [relative_to]
  have htake : (rp ++ t).take rp.length = rp := by
    have h := take_len_add rp t 0
    simp

  have hdrop : (rp ++ t).drop rp.length = t := by simp
  simp [htake, hdrop]

/-- The directory unpacker's rel-path computation re-roots a walked entry
at `/`. -/
theorem generate_extraction_rel_path_ok (root : GPath) (t : List String) :
    generate_extraction_rel_path root ⟨root.absolute, root.parts ++ t⟩ =
      .ok ⟨true, t⟩ := by
  simp only [generate_extraction_rel_path]
  have hrel : relative_to ⟨root.absolute, root.parts ++ t⟩ root = .ok ⟨false, t⟩ :=
    relative_to_append root.absolute root.parts t
  rw [hrel]
  simp [Except.map, joinPath, rootPath]

/-- A `mapM` whose body always succeeds is the `map` of its value. -/
theorem mapM_ok {α β : Type} (f : α → Except String β) (g : α → β) (l : List α)
    (h : ∀ x ∈ l, f x = .ok (g x)) : l.mapM f = .ok (l.map g) := by
  induction l with
  | nil => rfl
  | cons x xs ih =>
    rw [List.mapM_cons, h x (List.mem_cons_self x xs),
      ih (fun y hy => h y (List.mem_cons_of_mem x hy))]
    rfl

/-- C2: for every well-formed tree of files and directories, the
directory unpacker on that tree, the tar unpacker on the tar encoding of
the tree, and the zip unpacker on the zip encoding of the tree produce
manifests with identical member paths, each member `a/b/...` appearing
as the re-rooted path `/a/b/...`. -/
theorem manifest_paths_identical_across_unpackers
    (md5f sha1f ssdeepf : List Nat → String) (root : GPath)
    (tree : List TreeEntry)
    (hwf : ∀ t ∈ tree, wfEntry t = true) :
    (directory_unpack_extraction md5f sha1f ssdeepf root tree).map
        (fun objs => objs.map (fun o => o.path)) =
      .ok (tree.map (fun t => GPath.mk true t.relParts)) ∧
    (tar_unpack_extraction md5f sha1f ssdeepf (tree.map tarMemberOfEntry)).map
        (fun o => o.path) = tree.map (fun t => GPath.mk true t.relParts) ∧
    (zip_unpack_extraction md5f sha1f ssdeepf (tree.map zipMemberOfEntry)).map
        (fun o => o.path) = tree.map (fun t => GPath.mk true t.relParts) := by
  have hwf2 : ∀ t ∈ tree, t.relParts ≠ [] ∧
      ∀ p ∈ t.relParts, plainComponent p = true := by
    intro t ht
    have hw := hwf t ht
    simp only [wfEntry, Bool.and_eq_true, List.all_eq_true,
      decide_eq_true_eq] at hw
    exact ⟨hw.1, fun p hp => hw.2 p hp⟩
  have hjoin : ∀ t ∈ tree,
      joinStr rootPath (joinComponents t.relParts) = ⟨true, t.relParts⟩ := by
    intro t ht
    obtain ⟨h1, h2⟩ := hwf2 t ht
    rw [joinStr, parsePathStr_joinComponents t.relParts h1 h2]
    simp [joinPath, rootPath]
  refine ⟨?_, ?_, ?_⟩
  · have hdir : directory_unpack_extraction md5f sha1f ssdeepf root tree =
        .ok (tree.map (fun t =>
          if t.isDir then
            (⟨.directory, ⟨true, t.relParts⟩, .dirMeta⟩ : UnpackedExtractionObject)
          else
            ⟨.file, ⟨true, t.relParts⟩,
             .fileMeta (md5f t.content) (sha1f t.content) (ssdeepf t.content)
               t.content.length⟩)) := by
      apply mapM_ok
      intro t ht
      by_cases hd : t.isDir
      · simp [hd, generate_extraction_rel_path_ok, Except.map]
      · simp [hd, generate_extraction_rel_path_ok, Except.map]
    rw [hdir]
    simp only [Except.map, List.map_map]
    congr 1
    apply List.map_congr_left
    intro t ht
    by_cases hd : t.isDir <;> simp [hd]
  · simp only [tar_unpack_extraction, List.map_map]
    apply List.map_congr_left
    intro t ht
    by_cases hd : t.isDir <;>
      simp [tarMemberOfEntry, hd, Function.comp, hjoin t ht]
  · simp only [zip_unpack_extraction, List.map_map]
    apply List.map_congr_left
    intro t ht
    obtain ⟨h1, h2⟩ := hwf2 t ht
    by_cases hd : t.isDir
    · have hzd := zipMemberIsDir_slash t.relParts t.content
      simp only [Function.comp, zipMemberOfEntry, hd, if_true]
      simp [hzd, joinStr, parsePathStr_joinComponents_slash t.relParts h1 h2,
        joinPath, rootPath]
    · have hzd := zipMemberIsDir_plain t.relParts t.content h1 h2
      simp only [Function.comp, zipMemberOfEntry, hd, if_false]
      simp [string_append_empty, hzd, hjoin t ht]

/-- Witness for `manifest_paths_identical_across_unpackers`: the tree
holding the file `a/b.txt` and the directory `docs` yields member paths
`/a/b.txt` and `/docs` from all three unpacker variants. -/
theorem manifest_paths_identical_across_unpackers_witness :
    (directory_unpack_extraction (fun _ => "h1") (fun _ => "h2") (fun _ => "h3")
        ⟨true, ["mnt", "data", "dir1"]⟩
        [⟨["a", "b.txt"], false, [1, 2]⟩, ⟨["docs"], true, []⟩]).map
        (fun objs => objs.map (fun o => o.path)) =
      .ok [⟨true, ["a", "b.txt"]⟩, ⟨true, ["docs"]⟩] ∧
    (tar_unpack_extraction (fun _ => "h1") (fun _ => "h2") (fun _ => "h3")
        ([⟨["a", "b.txt"], false, [1, 2]⟩,
          (⟨["docs"], true, []⟩ : TreeEntry)].map tarMemberOfEntry)).map
        (fun o => o.path) = [⟨true, ["a", "b.txt"]⟩, ⟨true, ["docs"]⟩] ∧
    (zip_unpack_extraction (fun _ => "h1") (fun _ => "h2") (fun _ => "h3")
        ([⟨["a", "b.txt"], false, [1, 2]⟩,
          (⟨["docs"], true, []⟩ : TreeEntry)].map zipMemberOfEntry)).map
        (fun o => o.path) = [⟨true, ["a", "b.txt"]⟩, ⟨true, ["docs"]⟩] :=
  manifest_paths_identical_across_unpackers (fun _ => "h1") (fun _ => "h2")
    (fun _ => "h3") ⟨true, ["mnt", "data", "dir1"]⟩
    [⟨["a", "b.txt"], false, [1, 2]⟩, ⟨["docs"], true, []⟩]
    (by decide)
